import Mathlib

/-!
Shallow embedding of `pytorch_toolkit/formula_recognition/im2latex/data/utils.py`:
the batch-uniformization and transform-composition pipeline of the formula
recognition training code (geometric normalizers, stochastic perturbation
filters, the declarative pipeline builder, the collator and the tokenizer
bridge `formulas2tensor`).

Modelling conventions, stated once here:

* An image (a `height × width × channel` array of 8-bit unsigned values in the
  source) is modelled as a rectangular list of rows of single-channel pixel
  intensities `List (List Nat)`; the channel axis is never observed by a
  property below, and the constant fill `COLOR_WHITE = (255, 255, 255)` becomes
  the single intensity `255`.  `Image.Rectangular` captures well-formedness of
  a dense array (every row has the width of the first).
* External OpenCV/NumPy routines (out of the module's scope, consumed as a
  carrier library) are modelled at the level the properties need:
  `cv.resize` produces the OpenCV output size `cvRound(fx·w) × cvRound(fy·h)`
  (round half to even) with nearest sampling for the content, and raises on an
  empty output size; `cv.copyMakeBorder` with non-negative
  widths is constant-fill bordering, and a call that hands it a non-integer
  border width (Python `None`) fails; `cv.warpAffine` inverts the affine
  matrix and samples the source, modelled exactly at integer lattice points
  (which is all the claims exercise: the matrices reaching it there are
  integer translations, where bilinear interpolation agrees); `torch.stack`
  is the identity packaging of the already materialized list.
* Process-wide RNG draws (`np.random.randint`, `np.random.uniform`,
  `np.random.normal`) become explicit function arguments; a hypothesis states
  the documented range contract where a property needs it.  For the noise
  filter the whole draw `np.random.normal(np.mean(img), np.std(img), shape)`
  is one abstract per-call, per-pixel rational source: the mean/std arguments
  only parameterize the external RNG and are never observed afterwards.
* Fallible code (out-of-range index, failing library call, the `assert` in
  `BatchResizePad`) returns `Option`, `none` meaning the Python call raises.
-/

/-- Pixel value: one 8-bit channel intensity (`0 ≤ v ≤ 255` in the source's
arrays; arithmetic that wraps is written with an explicit `% 256`). -/
abbrev Pixel := Nat

/-- Constant background fill `COLOR_WHITE = (255, 255, 255)` of `utils.py`,
as a single channel intensity. -/
def COLOR_WHITE : Pixel := 255

/-- An image: a list of rows of pixels (height × width). -/
abbrev Image := List (List Pixel)

/-- Number of rows (`img.shape[0]`). -/
def Image.height (img : Image) : Nat := img.length

/-- Number of columns (`img.shape[1]`), read off the first row as in a dense
array; `0` for an image with no rows. -/
def Image.width (img : Image) : Nat := (img.headD []).length

/-- The pair `img.shape[0:2]` of the source. -/
def Image.shape (img : Image) : Nat × Nat := (img.height, img.width)

/-- Pixel access `img[y][x]`, total with the background as the default so
statements can quantify without bound proofs (claims always add bounds). -/
def Image.pixel (img : Image) (y x : Nat) : Pixel := (img.getD y []).getD x COLOR_WHITE

/-- Well-formedness of a dense array: every row has the image's width. -/
def Image.Rectangular (img : Image) : Prop := ∀ row ∈ img, row.length = img.width

instance (img : Image) : Decidable img.Rectangular := by
  unfold Image.Rectangular
  infer_instance

/-- Model of `cv.copyMakeBorder(img, top, bottom, left, right,
cv.BORDER_CONSTANT, value=color)` for non-negative border widths: constant
bordering on the four sides. -/
def copyMakeBorder (img : Image) (top bottom left right : Nat) (color : Pixel) : Image :=
  let w := img.width + left + right
  List.replicate top (List.replicate w color)
    ++ img.map (fun row => List.replicate left color ++ row ++ List.replicate right color)
    ++ List.replicate bottom (List.replicate w color)

/-- OpenCV's `cvRound`: round half to even (x86 banker's rounding), used to
compute `cv.resize`'s output size. -/
def cvRound (q : ℚ) : ℤ :=
  if q - ⌊q⌋ < 1 / 2 then ⌊q⌋
  else if 1 / 2 < q - ⌊q⌋ then ⌊q⌋ + 1
  else if ⌊q⌋ % 2 = 0 then ⌊q⌋ else ⌊q⌋ + 1

/-- Model of `cv.resize(img, None, fx=fx, fy=fy)`: OpenCV computes the output
size as `cvRound(fx·width) × cvRound(fy·height)` and resamples; when either
rounds to zero it raises (`CV_Assert(!dsize.empty())`), modelled `none`.  The
content model is nearest sampling (no claim observes resampled content). -/
def cvResize (img : Image) (fx fy : ℚ) : Option Image :=
  let h2 := (cvRound ((img.height : ℚ) * fy)).toNat
  let w2 := (cvRound ((img.width : ℚ) * fx)).toNat
  if 0 < h2 ∧ 0 < w2 then
    some ((List.range h2).map (fun (y : Nat) =>
      (List.range w2).map (fun (x : Nat) =>
        img.pixel (⌊(y : ℚ) / fy⌋).toNat (⌊(x : ℚ) / fx⌋).toNat)))
  else none

/-- Body of `BatchResizePad.__call__` for one image: scale by
`min(target_height / img_h, target_width / img_w)`, then pad right/bottom to
the target with `COLOR_WHITE`.  `none` models a raising call: `cv.resize` on
an empty output size, a negative width handed to `cv.copyMakeBorder`, or the
final `assert image_raw.shape[0:2] == self.target_shape` firing. -/
def resizePadOne (target_shape : Nat × Nat) (image_raw : Image) : Option Image :=
  let target_height := target_shape.1
  let target_width := target_shape.2
  let scale : ℚ := min ((target_height : ℚ) / (image_raw.height : ℚ))
                       ((target_width : ℚ) / (image_raw.width : ℚ))
  (cvResize image_raw scale scale).bind (fun resized =>
    if resized.height ≤ target_height ∧ resized.width ≤ target_width then
      let padded := copyMakeBorder resized 0 (target_height - resized.height)
                      0 (target_width - resized.width) COLOR_WHITE
      if padded.shape = target_shape then some padded else none
    else none)

/-- Sequencing of a fallible loop body over a list (Python's `for` with a
body that may raise, appending to `res`): `none` as soon as one element
fails, the collected list otherwise. -/
def optMapM {α β : Type _} (f : α → Option β) : List α → Option (List β)
  | [] => some []
  | a :: as =>
    match f a, optMapM f as with
    | some b, some bs => some (b :: bs)
    | _, _ => none

/-- Class `BatchResizePad` as the function its `__call__` denotes on a list
argument (the source wraps a bare image into a one-element list first). -/
def BatchResizePad (target_shape : Nat × Nat) (imgs : List Image) : Option (List Image) :=
  optMapM (resizePadOne target_shape) imgs

/-- Top-left crop `image_raw[:new_h, :new_w, :]` of the source, named so the
lemmas below can speak about it. -/
def cropTL (new_h new_w : Nat) (image_raw : Image) : Image :=
  (image_raw.take new_h).map (fun row => row.take new_w)

/-- Body of `BatchCropPad.__call__` for one image: top-left crop to
`min(dim, target_dim)` per axis, then pad bottom/right to the target with
`COLOR_WHITE` (no assert in the source here; border widths are non-negative
by construction). -/
def cropPadOne (target_shape : Nat × Nat) (image_raw : Image) : Image :=
  let target_height := target_shape.1
  let target_width := target_shape.2
  let new_w := min target_width image_raw.width
  let new_h := min target_height image_raw.height
  let cropped : Image := cropTL new_h new_w image_raw
  copyMakeBorder cropped 0 (target_height - Image.height cropped)
    0 (target_width - Image.width cropped) COLOR_WHITE

/-- Class `BatchCropPad` as the function its `__call__` denotes on a list. -/
def BatchCropPad (target_shape : Nat × Nat) (imgs : List Image) : List Image :=
  imgs.map (cropPadOne target_shape)


/-! ## Shape arithmetic of the bordering and of `CropPad` -/

theorem copyMakeBorder_height (img : Image) (top bottom left right : Nat) (color : Pixel) :
    Image.height (copyMakeBorder img top bottom left right color)
      = top + Image.height img + bottom := by
  simp [copyMakeBorder, Image.height]
  omega

theorem copyMakeBorder_width (img : Image) (top bottom left right : Nat) (color : Pixel)
    (h : 0 < top + Image.height img + bottom) :
    Image.width (copyMakeBorder img top bottom left right color)
      = Image.width img + left + right := by
  rcases top with _ | t
  · rcases img with _ | ⟨row, rest⟩
    · rcases bottom with _ | b
      · simp [Image.height] at h
      · simp [copyMakeBorder, Image.width, List.replicate_succ]
    · simp [copyMakeBorder, Image.width]
      omega
  · simp [copyMakeBorder, Image.width, List.replicate_succ]

theorem cropTL_height (new_h new_w : Nat) (img : Image) :
    Image.height (cropTL new_h new_w img) = min new_h (Image.height img) := by
  simp [cropTL, Image.height]

theorem cropTL_width_le (new_h new_w : Nat) (img : Image) :
    Image.width (cropTL new_h new_w img) ≤ new_w := by
  rcases img with _ | ⟨row, rest⟩
  · simp [cropTL, Image.width]
  · rcases new_h with _ | m
    · simp [cropTL, Image.width]
    · simp [cropTL, Image.width, List.take_succ_cons]

theorem cropPadOne_shape (th tw : Nat) (hth : 0 < th) (img : Image) :
    Image.shape (cropPadOne (th, tw) img) = (th, tw) := by
  have hwle : Image.width (cropTL (min th (Image.height img)) (min tw (Image.width img)) img)
      ≤ tw := le_trans (cropTL_width_le _ _ _) (Nat.min_le_left _ _)
  have hh : Image.height (cropTL (min th (Image.height img)) (min tw (Image.width img)) img)
      = min th (Image.height img) := by
    rw [cropTL_height, Nat.min_assoc, Nat.min_self]
  simp only [cropPadOne, Image.shape, Prod.mk.injEq]
  constructor
  · rw [copyMakeBorder_height, hh]
    omega
  · rw [copyMakeBorder_width]
    · omega
    · rw [hh]; omega

theorem copyMakeBorder_pixel_rb (img : Image) (b r : Nat) (color : Pixel) (y x : Nat)
    (hy : y < Image.height img) (hx : x < (img.getD y []).length) :
    Image.pixel (copyMakeBorder img 0 b 0 r color) y x = Image.pixel img y x := by
  obtain ⟨row, hrow⟩ : ∃ row, img[y]? = some row := ⟨_, List.getElem?_eq_getElem hy⟩
  have hgetD : img.getD y [] = row := by rw [List.getD_eq_getElem?_getD, hrow]; rfl
  rw [hgetD] at hx
  simp only [copyMakeBorder, List.replicate_zero, List.nil_append, Image.pixel, hgetD,
    List.getD_eq_getElem?_getD]
  rw [List.getElem?_append_left (by simpa [Image.height] using hy),
    List.getElem?_map, hrow]
  simp only [Option.map_some', Option.getD_some]
  rw [List.getElem?_append_left hx]

theorem cropTL_row (nh nw : Nat) (img : Image) (y : Nat)
    (hy : y < min nh (Image.height img)) :
    (cropTL nh nw img).getD y [] = (img.getD y []).take nw := by
  have hyn : y < nh := by omega
  have hyH : y < Image.height img := by omega
  obtain ⟨row, hrow⟩ : ∃ row, img[y]? = some row := ⟨_, List.getElem?_eq_getElem hyH⟩
  have htake : (img.take nh)[y]? = some row := by
    rw [List.getElem?_take_of_lt hyn, hrow]
  simp only [cropTL, List.getD_eq_getElem?_getD]
  rw [List.getElem?_map, htake, hrow]
  rfl

theorem cropPadOne_pixel (th tw : Nat) (img : Image) (hrect : img.Rectangular)
    (y x : Nat) (hy : y < min (Image.height img) th) (hx : x < min (Image.width img) tw) :
    Image.pixel (cropPadOne (th, tw) img) y x = Image.pixel img y x := by
  have hyH : y < Image.height img := by omega
  obtain ⟨row, hrow⟩ : ∃ row, img[y]? = some row := ⟨_, List.getElem?_eq_getElem hyH⟩
  have hgetD : img.getD y [] = row := by rw [List.getD_eq_getElem?_getD, hrow]; rfl
  have hrowlen : row.length = Image.width img := hrect row (List.getElem?_mem hrow)
  have hymin : y < min (min th (Image.height img)) (Image.height img) := by omega
  have hrowc : (cropTL (min th (Image.height img)) (min tw (Image.width img)) img).getD y []
      = row.take (min tw (Image.width img)) := by
    rw [cropTL_row _ _ _ _ (by omega), hgetD]
  have hxrow : x < (row.take (min tw (Image.width img))).length := by
    rw [List.length_take, hrowlen]; omega
  simp only [cropPadOne]
  rw [copyMakeBorder_pixel_rb _ _ _ _ _ _
      (by rw [cropTL_height]; omega) (by rw [hrowc]; exact hxrow)]
  simp only [Image.pixel, hrowc, hgetD, List.getD_eq_getElem?_getD]
  rw [List.getElem?_take_of_lt (by omega)]

theorem getD_map_lt {α β : Type _} (f : α → β) (l : List α) (i : Nat) (d : α) (d2 : β)
    (h : i < l.length) : (l.map f).getD i d2 = f (l.getD i d) := by
  rw [List.getD_eq_getElem?_getD, List.getElem?_map, List.getD_eq_getElem?_getD,
    List.getElem?_eq_getElem h]
  rfl

/-- C5: for every input image and target shape `(TH, TW)` with a positive
target height, `CropPad`'s output shape equals `(TH, TW)` exactly, and every
pixel in the overlap region `[0, min(H, TH)) × [0, min(W, TW))` of the output
is byte-identical to the corresponding pixel of the source image (top-left
crop, no scaling, bottom/right constant padding). -/
theorem cropPad_overlap_identity (th tw : Nat) (imgs : List Image) (i : Nat)
    (hth : 0 < th) (hi : i < imgs.length) (hrect : (imgs.getD i []).Rectangular) :
    Image.shape ((BatchCropPad (th, tw) imgs).getD i []) = (th, tw) ∧
    ∀ y x, y < min (Image.height (imgs.getD i [])) th →
      x < min (Image.width (imgs.getD i [])) tw →
      Image.pixel ((BatchCropPad (th, tw) imgs).getD i []) y x
        = Image.pixel (imgs.getD i []) y x := by
  have hmap : (BatchCropPad (th, tw) imgs).getD i [] = cropPadOne (th, tw) (imgs.getD i []) := by
    simpa [BatchCropPad] using getD_map_lt (cropPadOne (th, tw)) imgs i [] [] hi
  rw [hmap]
  exact ⟨cropPadOne_shape th tw hth _,
    fun y x hy hx => cropPadOne_pixel th tw _ hrect y x hy hx⟩

/-- Witness: `CropPad` with target `(2, 3)` on one `2 × 2` image. -/
theorem cropPad_overlap_identity_witness :
    Image.shape ((BatchCropPad (2, 3) [[[7, 8], [9, 10]]]).getD 0 []) = (2, 3) ∧
    ∀ y x, y < min (Image.height (([[[7, 8], [9, 10]]] : List Image).getD 0 [])) 2 →
      x < min (Image.width (([[[7, 8], [9, 10]]] : List Image).getD 0 [])) 3 →
      Image.pixel ((BatchCropPad (2, 3) [[[7, 8], [9, 10]]]).getD 0 []) y x
        = Image.pixel (([[[7, 8], [9, 10]]] : List Image).getD 0 []) y x :=
  cropPad_overlap_identity 2 3 [[[7, 8], [9, 10]]] 0 (by decide) (by decide) (by decide)

/-! ## `ResizePad`: the assert never fires -/

theorem cvRound_toNat_le (q : ℚ) (n : Nat) (h : q ≤ (n : ℚ)) : (cvRound q).toNat ≤ n := by
  have hfl : ⌊q⌋ ≤ (n : ℤ) := by
    calc ⌊q⌋ ≤ ⌊(n : ℚ)⌋ := Int.floor_le_floor h
      _ = (n : ℤ) := Int.floor_natCast n
  have hplus : (0 : ℚ) < q - ⌊q⌋ → ⌊q⌋ + 1 ≤ (n : ℤ) := by
    intro hpos
    rcases lt_or_eq_of_le hfl with hlt | heq
    · omega
    · exfalso
      rw [heq] at hpos
      push_cast at hpos
      linarith
  rw [cvRound]
  split_ifs with h1 h2 h3
  · exact Int.toNat_le.mpr hfl
  · exact Int.toNat_le.mpr (hplus (by linarith))
  · exact Int.toNat_le.mpr hfl
  · exact Int.toNat_le.mpr (hplus (by linarith))

theorem cvResize_some (img : Image) (fx fy : ℚ)
    (hh : 0 < (cvRound ((Image.height img : ℚ) * fy)).toNat)
    (hw : 0 < (cvRound ((Image.width img : ℚ) * fx)).toNat) :
    ∃ resized, cvResize img fx fy = some resized ∧
      Image.height resized = (cvRound ((Image.height img : ℚ) * fy)).toNat ∧
      Image.width resized = (cvRound ((Image.width img : ℚ) * fx)).toNat := by
  simp only [cvResize]
  rw [if_pos ⟨hh, hw⟩]
  refine ⟨_, rfl, ?_, ?_⟩
  · simp [Image.height]
  · obtain ⟨n, hn⟩ : ∃ n, (cvRound ((Image.height img : ℚ) * fy)).toNat = n + 1 :=
      ⟨_, (Nat.succ_pred_eq_of_pos hh).symm⟩
    simp [Image.width, hn, List.range_succ_eq_map]

theorem resizePadOne_exact (th tw : Nat) (img : Image)
    (hh : 0 < Image.height img) (hw : 0 < Image.width img)
    (hr1 : 0 < (cvRound ((Image.height img : ℚ) *
      min ((th : ℚ) / (Image.height img : ℚ)) ((tw : ℚ) / (Image.width img : ℚ)))).toNat)
    (hr2 : 0 < (cvRound ((Image.width img : ℚ) *
      min ((th : ℚ) / (Image.height img : ℚ)) ((tw : ℚ) / (Image.width img : ℚ)))).toNat) :
    ∃ out, resizePadOne (th, tw) img = some out ∧ Image.shape out = (th, tw) := by
  have hHne : ((Image.height img : ℚ)) ≠ 0 := by positivity
  have hWne : ((Image.width img : ℚ)) ≠ 0 := by positivity
  have hhle : (Image.height img : ℚ) *
      min ((th : ℚ) / (Image.height img : ℚ)) ((tw : ℚ) / (Image.width img : ℚ))
      ≤ (th : ℚ) := by
    calc (Image.height img : ℚ) *
        min ((th : ℚ) / (Image.height img : ℚ)) ((tw : ℚ) / (Image.width img : ℚ))
        ≤ (Image.height img : ℚ) * ((th : ℚ) / (Image.height img : ℚ)) :=
          mul_le_mul_of_nonneg_left (min_le_left _ _) (by positivity)
      _ = (th : ℚ) := by field_simp
  have hwle : (Image.width img : ℚ) *
      min ((th : ℚ) / (Image.height img : ℚ)) ((tw : ℚ) / (Image.width img : ℚ))
      ≤ (tw : ℚ) := by
    calc (Image.width img : ℚ) *
        min ((th : ℚ) / (Image.height img : ℚ)) ((tw : ℚ) / (Image.width img : ℚ))
        ≤ (Image.width img : ℚ) * ((tw : ℚ) / (Image.width img : ℚ)) :=
          mul_le_mul_of_nonneg_left (min_le_right _ _) (by positivity)
      _ = (tw : ℚ) := by field_simp
  obtain ⟨resized, hres, hresh, hresw⟩ := cvResize_some img
    (min ((th : ℚ) / (Image.height img : ℚ)) ((tw : ℚ) / (Image.width img : ℚ)))
    (min ((th : ℚ) / (Image.height img : ℚ)) ((tw : ℚ) / (Image.width img : ℚ))) hr1 hr2
  have hrh : Image.height resized ≤ th := by
    rw [hresh]
    exact cvRound_toNat_le _ _ hhle
  have hrw : Image.width resized ≤ tw := by
    rw [hresw]
    exact cvRound_toNat_le _ _ hwle
  have hshape : Image.shape (copyMakeBorder resized 0 (th - Image.height resized)
      0 (tw - Image.width resized) COLOR_WHITE) = (th, tw) := by
    have hph := copyMakeBorder_height resized 0 (th - Image.height resized)
      0 (tw - Image.width resized) COLOR_WHITE
    have hpw := copyMakeBorder_width resized 0 (th - Image.height resized)
      0 (tw - Image.width resized) COLOR_WHITE (by omega)
    simp only [Image.shape, Prod.mk.injEq]
    constructor
    · rw [hph]; omega
    · rw [hpw]; omega
  refine ⟨_, ?_, hshape⟩
  rw [resizePadOne, hres, Option.some_bind, if_pos ⟨hrh, hrw⟩, if_pos hshape]

theorem optMapM_eq_some_iff {α β : Type _} (f : α → Option β) (l : List α) (r : List β) :
    optMapM f l = some r ↔ List.Forall₂ (fun a b => f a = some b) l r := by
  induction l generalizing r with
  | nil => cases r <;> simp [optMapM]
  | cons a as ih =>
    constructor
    · intro h
      cases hfa : f a with
      | none => simp [optMapM, hfa] at h
      | some b =>
        cases hrec : optMapM f as with
        | none => simp [optMapM, hfa, hrec] at h
        | some bs =>
          simp only [optMapM, hfa, hrec] at h
          rw [Option.some_inj] at h
          rw [← h]
          exact List.Forall₂.cons hfa ((ih _).mp hrec)
    · intro h
      cases h with
      | cons hab htail =>
        simp [optMapM, hab, (ih _).mpr htail]

theorem optMapM_isSome_iff {α β : Type _} (f : α → Option β) (l : List α) :
    (optMapM f l).isSome ↔ ∀ a ∈ l, (f a).isSome := by
  induction l with
  | nil => simp [optMapM]
  | cons a as ih =>
    simp only [List.mem_cons]
    constructor
    · intro h
      cases hfa : f a with
      | none => rw [optMapM, hfa] at h; simp at h
      | some b =>
        cases hrec : optMapM f as with
        | none => rw [optMapM, hfa, hrec] at h; simp at h
        | some bs =>
          intro x hx
          rcases hx with rfl | hx
          · simp [hfa]
          · exact (ih.mp (by simp [hrec])) x hx
    · intro h
      have hfa : (f a).isSome := h a (Or.inl rfl)
      have hrest : (optMapM f as).isSome := ih.mpr (fun x hx => h x (Or.inr hx))
      obtain ⟨b, hb⟩ := Option.isSome_iff_exists.mp hfa
      obtain ⟨bs, hbs⟩ := Option.isSome_iff_exists.mp hrest
      rw [optMapM, hb, hbs]
      simp

/-- C3 (amended): for every batch of images of positive height and width and
every target shape `(TH, TW)` for which `cv.resize`'s output size
`cvRound(scale·W) × cvRound(scale·H)` is non-empty for each image, with
`scale = min(TH/H, TW/W)`, `ResizePad` scales each image uniformly by `scale`
and pads right/bottom so that every output image's shape equals `(TH, TW)`
exactly; both padding amounts are non-negative and the shape assertion never
fires.  When an output dimension rounds to zero, `cv.resize` itself raises on
the empty output size (see the counterexample): the assertion still never
fires, but the call fails before it. -/
theorem resizePad_allExact (th tw : Nat) (imgs : List Image)
    (hpos : ∀ img ∈ imgs, 0 < Image.height img ∧ 0 < Image.width img)
    (hround : ∀ img ∈ imgs,
      0 < (cvRound ((Image.height img : ℚ) *
        min ((th : ℚ) / (Image.height img : ℚ)) ((tw : ℚ) / (Image.width img : ℚ)))).toNat ∧
      0 < (cvRound ((Image.width img : ℚ) *
        min ((th : ℚ) / (Image.height img : ℚ)) ((tw : ℚ) / (Image.width img : ℚ)))).toNat) :
    ∃ outs, BatchResizePad (th, tw) imgs = some outs ∧ outs.length = imgs.length ∧
      ∀ o ∈ outs, Image.shape o = (th, tw) := by
  induction imgs with
  | nil => exact ⟨[], rfl, rfl, by simp⟩
  | cons img rest ih =>
    obtain ⟨out, hout, hshape⟩ := resizePadOne_exact th tw img
      (hpos img (by simp)).1 (hpos img (by simp)).2
      (hround img (by simp)).1 (hround img (by simp)).2
    obtain ⟨outs, houts, hlen, hall⟩ := ih (fun i hi => hpos i (by simp [hi]))
      (fun i hi => hround i (by simp [hi]))
    have houts2 : optMapM (resizePadOne (th, tw)) rest = some outs := houts
    refine ⟨out :: outs, ?_, by simp [hlen], ?_⟩
    · rw [BatchResizePad, optMapM, hout, houts2]
    · intro o ho
      rcases List.mem_cons.mp ho with h | h
      · rw [h]; exact hshape
      · exact hall o h

/-- Witness: `ResizePad` to target `(2, 3)` on one `1 × 1` image, whose
scaled output size `2 × 2` is non-empty. -/
theorem resizePad_allExact_witness :
    ∃ outs, BatchResizePad (2, 3) [[[5]]] = some outs ∧ outs.length = 1 ∧
      ∀ o ∈ outs, Image.shape o = (2, 3) :=
  resizePad_allExact 2 3 [[[5]]] (by decide)
    (by
      intro img himg
      rw [List.mem_singleton] at himg
      subst himg
      constructor <;> norm_num [cvRound, Image.height, Image.width, min_def])

/-- Counterexample to C3 as stated: a `1 × 3` image with target shape
`(5, 1)` gives `scale = min(5/1, 1/3) = 1/3`, so `cv.resize`'s output size is
`cvRound(3·1/3) × cvRound(1·1/3) = 1 × 0`: the resize raises on the empty
output size and `ResizePad` produces nothing, instead of returning an image
of shape `(5, 1)` as the claim asserts for every positive-sized input. -/
theorem resizePad_empty_output_fails :
    BatchResizePad (5, 1) [[[1, 2, 3]]] = none := by
  have hzero : (cvRound ((Image.height ([[1, 2, 3]] : Image) : ℚ) *
      min (((5 : Nat) : ℚ) / (Image.height ([[1, 2, 3]] : Image) : ℚ))
          (((1 : Nat) : ℚ) / (Image.width ([[1, 2, 3]] : Image) : ℚ)))).toNat = 0 := by
    norm_num [cvRound, Image.height, Image.width, min_def]
  have hcv : cvResize [[1, 2, 3]]
      (min (((5 : Nat) : ℚ) / (Image.height ([[1, 2, 3]] : Image) : ℚ))
           (((1 : Nat) : ℚ) / (Image.width ([[1, 2, 3]] : Image) : ℚ)))
      (min (((5 : Nat) : ℚ) / (Image.height ([[1, 2, 3]] : Image) : ℚ))
           (((1 : Nat) : ℚ) / (Image.width ([[1, 2, 3]] : Image) : ℚ))) = none := by
    rw [cvResize, if_neg]
    intro hc
    rw [hzero] at hc
    exact absurd hc.1 (by norm_num)
  have hone : resizePadOne (5, 1) [[1, 2, 3]] = none := by
    rw [resizePadOne, hcv]
    rfl
  rw [BatchResizePad, optMapM, hone]

/-- Witness check that the counterexample input is within the original
claim's hypotheses: the image has positive height and width. -/
theorem resizePad_empty_output_fails_input_pos :
    0 < Image.height ([[1, 2, 3]] : Image) ∧ 0 < Image.width ([[1, 2, 3]] : Image) := by
  decide

/-! ## `BatchTransformPad` (random padding) and `BatchTransformRandomNoise` -/

/-- Class `BatchTransformPad`: draws the four pad widths (left, right, bottom,
top, in the source's draw order) through `np.random.randint(0, bound)`,
modelled by the explicit `randint` argument; a side whose configured bound is
not positive gets Python `None` instead of a width, and `cv.copyMakeBorder`
rejects a `None` border width, so the whole call raises (`none`). -/
def BatchTransformPad (pad_l pad_r pad_b pad_t : Nat) (randint : Nat → Nat → Nat)
    (imgs : List Image) : Option (List Image) :=
  let left_p : Option Nat := if 0 < pad_l then some (randint 0 pad_l) else none
  let right_p : Option Nat := if 0 < pad_r then some (randint 0 pad_r) else none
  let bottom_p : Option Nat := if 0 < pad_b then some (randint 0 pad_b) else none
  let top_p : Option Nat := if 0 < pad_t then some (randint 0 pad_t) else none
  match left_p, right_p, bottom_p, top_p with
  | some l, some r, some b, some t =>
      some (imgs.map (fun img => copyMakeBorder img t b l r COLOR_WHITE))
  | _, _, _, _ => none

/-- C7 (code bug): with a zero bound on one side (`pad_l = 0` here) the call
fails — the guard stores `None` and `cv.copyMakeBorder` rejects it — instead
of succeeding with that side unpadded; with all four bounds positive, the four
widths are drawn once and the same four are applied to every image of the
list with the constant background fill. -/
theorem randomPad_zero_bound_fails :
    BatchTransformPad 0 50 20 20 (fun lo _ => lo) [[[7]]] = none ∧
    BatchTransformPad 50 50 20 20 (fun _ hi => hi - 1) [[[7]], [[8]]] =
      some [copyMakeBorder [[7]] 19 19 49 49 COLOR_WHITE,
            copyMakeBorder [[8]] 19 19 49 49 COLOR_WHITE] := by
  exact ⟨rfl, rfl⟩

/-- Conversion of a raw Gaussian draw to `np.uint8`: C-style truncation toward
zero, then reduction mod `2^8` (NumPy's float-to-uint8 cast). -/
def toUint8 (q : ℚ) : Pixel := ((if 0 ≤ q then ⌊q⌋ else ⌈q⌉) % 256).toNat

/-- Class `BatchTransformRandomNoise`. The source computes `np.mean(img)` and
`np.std(img)` only to parameterize `np.random.normal(mean, std, img.shape)`;
that whole external draw is the abstract per-image, per-pixel rational source
`normalDraw i y x`.  `gauss` starts as `np.zeros_like(img, dtype=np.uint8)`
and receives `noise * intensity` with uint8 wraparound (`% 256`); the appended
result is `img + gauss`, again with uint8 wraparound. -/
def BatchTransformRandomNoise (intensity : Nat) (normalDraw : Nat → Nat → Nat → ℚ)
    (imgs : List Image) : List Image :=
  (List.range imgs.length).map (fun (i : Nat) =>
    let img := imgs.getD i []
    let gauss : Image := (List.range (Image.height img)).map (fun (y : Nat) =>
      (List.range (Image.width img)).map (fun (x : Nat) =>
        (0 + toUint8 (normalDraw i y x) * intensity) % 256))
    List.zipWith (List.zipWith (fun a g => (a + g) % 256)) img gauss)

theorem getD_range_map {β : Type _} (f : Nat → β) (n i : Nat) (d : β) (h : i < n) :
    ((List.range n).map f).getD i d = f i := by
  rw [List.getD_eq_getElem?_getD, List.getElem?_map, List.getElem?_range h]
  rfl

theorem getD_zipWith {α β γ : Type _} (F : α → β → γ) (a : List α) (b : List β) (i : Nat)
    (da : α) (db : β) (dc : γ) (ha : i < a.length) (hb : i < b.length) :
    (List.zipWith F a b).getD i dc = F (a.getD i da) (b.getD i db) := by
  simp only [List.getD_eq_getElem?_getD]
  rw [List.getElem?_zipWith, List.getElem?_eq_getElem ha, List.getElem?_eq_getElem hb]
  simp

/-- C9: `RandomNoise` adds the sampled noise term to each image with unsigned
8-bit modular arithmetic — every output pixel equals
`(input pixel + noise term) mod 256`, the noise term being the drawn value
cast to uint8 and scaled by `intensity` with the same wraparound. -/
theorem randomNoise_wraparound (intensity : Nat) (normalDraw : Nat → Nat → Nat → ℚ)
    (imgs : List Image) (i y x : Nat) (hi : i < imgs.length)
    (hrect : (imgs.getD i []).Rectangular)
    (hy : y < Image.height (imgs.getD i [])) (hx : x < Image.width (imgs.getD i [])) :
    Image.pixel ((BatchTransformRandomNoise intensity normalDraw imgs).getD i []) y x
      = (Image.pixel (imgs.getD i []) y x
          + (toUint8 (normalDraw i y x) * intensity) % 256) % 256 := by
  obtain ⟨row, hrow⟩ : ∃ row, (imgs.getD i [])[y]? = some row :=
    ⟨_, List.getElem?_eq_getElem hy⟩
  have hrowD : (imgs.getD i []).getD y [] = row := by
    rw [List.getD_eq_getElem?_getD, hrow]; rfl
  have hrowlen : row.length = Image.width (imgs.getD i []) :=
    hrect row (List.getElem?_mem hrow)
  simp only [BatchTransformRandomNoise]
  rw [getD_range_map _ _ _ _ hi]
  simp only [Image.pixel]
  rw [getD_zipWith _ _ _ y [] [] []
    (by simpa [Image.height, List.getD_eq_getElem?_getD] using hy)
    (by simpa [Image.height, List.getD_eq_getElem?_getD] using hy)]
  rw [hrowD]
  rw [getD_range_map _ _ _ _ hy]
  rw [getD_zipWith _ _ _ x COLOR_WHITE 0 COLOR_WHITE
    (by simpa [hrowlen, List.getD_eq_getElem?_getD] using hx)
    (by simpa [Image.width, List.getD_eq_getElem?_getD] using hx)]
  rw [getD_range_map _ _ _ _ hx]
  simp

/-- Witness: a pixel of value 200 plus a noise term of 100 wraps to 44
instead of saturating at 255. -/
theorem randomNoise_wraparound_witness :
    Image.pixel ((BatchTransformRandomNoise 1 (fun _ _ _ => (100 : ℚ)) [[[200]]]).getD 0 []) 0 0
      = (Image.pixel (([[[200]]] : List Image).getD 0 []) 0 0
          + (toUint8 ((fun _ _ _ => (100 : ℚ)) 0 0 0) * 1) % 256) % 256 ∧
    (Image.pixel (([[[200]]] : List Image).getD 0 []) 0 0
        + (toUint8 ((fun _ _ _ => (100 : ℚ)) 0 0 0) * 1) % 256) % 256 = 44 :=
  ⟨randomNoise_wraparound 1 (fun _ _ _ => (100 : ℚ)) [[[200]]] 0 0 0 (by decide) (by decide)
    (by decide) (by decide), by decide⟩

/-! ## The pipeline builder `create_list_of_transforms` -/

/-- Tagged union of the transform units `create_list_of_transforms` can
construct, each carrying exactly the constructor arguments the builder passes
(class defaults filled in where the builder calls a constructor without the
corresponding argument). -/
inductive TransformUnit : Type where
  | batchResizePad (target_shape : Nat × Nat)
  | batchCropPad (target_shape : Nat × Nat)
  | batchTransformBin (threshold : Nat)
  | batchTransformBlur (sigmaX : ℚ)
  | batchTransformPad (pad_l pad_r pad_b pad_t : Nat)
  | batchTransformRandomNoise (intensity : Nat)
  | batchTransformRescale (scale_min scale_max : ℚ)
  | batchTransformRotate (angle : ℚ)
  | batchTransfromAdaptiveBin (threshold block_size : Nat)
  | transformDilation (kernel_size iterations : Nat)
  | transformErosion (kernel_size iterations : Nat)
  | transformResize (target_shape : Nat × Nat)
  | batchTransformShift (shift_x shift_y : Nat)
  | transformRandomBolding (kernel_size iterations threshold res_threshold : Nat)
      (sigmaX distr : ℚ)
  | batchToTensor
  deriving DecidableEq

/-- One configuration entry `{name: ..., params...}`. The source reads
parameters from a dict (a missing key would raise `KeyError`); the claims only
exercise dispatch on `name`, so an entry is modelled as a record with every
parameter field present. -/
structure TransformConf where
  name : String
  target_shape : Nat × Nat := (0, 0)
  threshold : Nat := 0
  pads : Nat × Nat × Nat × Nat := (0, 0, 0, 0)
  intensivity : Nat := 0
  scales : ℚ × ℚ := (0, 0)
  angle : ℚ := 0
  block_size : Nat := 0
  shifts : Nat × Nat := (0, 0)
  kernel_size : Nat := 0
  iterations : Nat := 0
  res_threshold : Nat := 0
  sigmaX : ℚ := 0
  distr : ℚ := 0

/-- Body of the builder's for-loop: the `if transform['name'] == ...` chain
appending one constructed unit to the accumulated `transforms` list, or
leaving the list unchanged for an unrecognized name. -/
def builderStep (transforms : List TransformUnit) (transform : TransformConf) :
    List TransformUnit :=
  if transform.name = "BatchResizePad" then
    transforms ++ [TransformUnit.batchResizePad transform.target_shape]
  else if transform.name = "BatchCropPad" then
    transforms ++ [TransformUnit.batchCropPad transform.target_shape]
  else if transform.name = "BatchTransformBin" then
    transforms ++ [TransformUnit.batchTransformBin transform.threshold]
  else if transform.name = "BatchTransformBlur" then
    transforms ++ [TransformUnit.batchTransformBlur (23 / 20)]
  else if transform.name = "BatchTransformPad" then
    transforms ++ [TransformUnit.batchTransformPad transform.pads.1 transform.pads.2.1
      transform.pads.2.2.1 transform.pads.2.2.2]
  else if transform.name = "BatchTransformRandomNoise" then
    transforms ++ [TransformUnit.batchTransformRandomNoise transform.intensivity]
  else if transform.name = "BatchTransformRescale" then
    transforms ++ [TransformUnit.batchTransformRescale transform.scales.1 transform.scales.2]
  else if transform.name = "BatchTransformRotate" then
    transforms ++ [TransformUnit.batchTransformRotate transform.angle]
  else if transform.name = "BatchTransfromAdaptiveBin" then
    transforms ++ [TransformUnit.batchTransfromAdaptiveBin transform.threshold
      transform.block_size]
  else if transform.name = "TransformDilation" then
    transforms ++ [TransformUnit.transformDilation 3 3]
  else if transform.name = "TransformErosion" then
    transforms ++ [TransformUnit.transformErosion 3 1]
  else if transform.name = "TransformResize" then
    transforms ++ [TransformUnit.transformResize transform.target_shape]
  else if transform.name = "BatchTransformShift" then
    transforms ++ [TransformUnit.batchTransformShift transform.shifts.1 transform.shifts.2]
  else if transform.name = "TransformRandomBolding" then
    transforms ++ [TransformUnit.transformRandomBolding transform.kernel_size
      transform.iterations transform.threshold transform.res_threshold
      transform.sigmaX transform.distr]
  else transforms

/-- `create_list_of_transforms`: the for-loop over the configuration entries
(`BatchTransformBlur()` keeps its default `sigmaX = 1.15 = 23/20`,
`TransformDilation()` its defaults `(3, 3)`, `TransformErosion()` its defaults
`(3, 1)`), then the final `BatchToTensor()` appended unless `ovino_ir`;
`Compose` keeps exactly the ordered list. -/
def create_list_of_transforms (transforms_list : List TransformConf) (ovino_ir : Bool) :
    List TransformUnit :=
  let transforms := transforms_list.foldl builderStep []
  if ¬ ovino_ir then transforms ++ [TransformUnit.batchToTensor] else transforms

/-- The transform identifiers the builder recognizes, in dispatch order. -/
def recognizedNames : List String :=
  ["BatchResizePad", "BatchCropPad", "BatchTransformBin", "BatchTransformBlur",
   "BatchTransformPad", "BatchTransformRandomNoise", "BatchTransformRescale",
   "BatchTransformRotate", "BatchTransfromAdaptiveBin", "TransformDilation",
   "TransformErosion", "TransformResize", "BatchTransformShift",
   "TransformRandomBolding"]

/-- Specification-side view of one dispatch step, following the spec's words:
one constructed unit per entry with a recognized name, nothing for an
unrecognized name.  The claim's theorem proves the builder's loop equal to
`filterMap` of this. -/
def recognizeTransform (transform : TransformConf) : Option TransformUnit :=
  if transform.name = "BatchResizePad" then
    some (TransformUnit.batchResizePad transform.target_shape)
  else if transform.name = "BatchCropPad" then
    some (TransformUnit.batchCropPad transform.target_shape)
  else if transform.name = "BatchTransformBin" then
    some (TransformUnit.batchTransformBin transform.threshold)
  else if transform.name = "BatchTransformBlur" then
    some (TransformUnit.batchTransformBlur (23 / 20))
  else if transform.name = "BatchTransformPad" then
    some (TransformUnit.batchTransformPad transform.pads.1 transform.pads.2.1
      transform.pads.2.2.1 transform.pads.2.2.2)
  else if transform.name = "BatchTransformRandomNoise" then
    some (TransformUnit.batchTransformRandomNoise transform.intensivity)
  else if transform.name = "BatchTransformRescale" then
    some (TransformUnit.batchTransformRescale transform.scales.1 transform.scales.2)
  else if transform.name = "BatchTransformRotate" then
    some (TransformUnit.batchTransformRotate transform.angle)
  else if transform.name = "BatchTransfromAdaptiveBin" then
    some (TransformUnit.batchTransfromAdaptiveBin transform.threshold transform.block_size)
  else if transform.name = "TransformDilation" then
    some (TransformUnit.transformDilation 3 3)
  else if transform.name = "TransformErosion" then
    some (TransformUnit.transformErosion 3 1)
  else if transform.name = "TransformResize" then
    some (TransformUnit.transformResize transform.target_shape)
  else if transform.name = "BatchTransformShift" then
    some (TransformUnit.batchTransformShift transform.shifts.1 transform.shifts.2)
  else if transform.name = "TransformRandomBolding" then
    some (TransformUnit.transformRandomBolding transform.kernel_size
      transform.iterations transform.threshold transform.res_threshold
      transform.sigmaX transform.distr)
  else none

theorem builder_step_eq (acc : List TransformUnit) (t : TransformConf) :
    builderStep acc t = acc ++ (recognizeTransform t).toList := by
  unfold builderStep
  unfold recognizeTransform
  by_cases h1 : t.name = "BatchResizePad"
  · rw [if_pos h1, if_pos h1]; rfl
  · rw [if_neg h1, if_neg h1]
    by_cases h2 : t.name = "BatchCropPad"
    · rw [if_pos h2, if_pos h2]; rfl
    · rw [if_neg h2, if_neg h2]
      by_cases h3 : t.name = "BatchTransformBin"
      · rw [if_pos h3, if_pos h3]; rfl
      · rw [if_neg h3, if_neg h3]
        by_cases h4 : t.name = "BatchTransformBlur"
        · rw [if_pos h4, if_pos h4]; rfl
        · rw [if_neg h4, if_neg h4]
          by_cases h5 : t.name = "BatchTransformPad"
          · rw [if_pos h5, if_pos h5]; rfl
          · rw [if_neg h5, if_neg h5]
            by_cases h6 : t.name = "BatchTransformRandomNoise"
            · rw [if_pos h6, if_pos h6]; rfl
            · rw [if_neg h6, if_neg h6]
              by_cases h7 : t.name = "BatchTransformRescale"
              · rw [if_pos h7, if_pos h7]; rfl
              · rw [if_neg h7, if_neg h7]
                by_cases h8 : t.name = "BatchTransformRotate"
                · rw [if_pos h8, if_pos h8]; rfl
                · rw [if_neg h8, if_neg h8]
                  by_cases h9 : t.name = "BatchTransfromAdaptiveBin"
                  · rw [if_pos h9, if_pos h9]; rfl
                  · rw [if_neg h9, if_neg h9]
                    by_cases h10 : t.name = "TransformDilation"
                    · rw [if_pos h10, if_pos h10]; rfl
                    · rw [if_neg h10, if_neg h10]
                      by_cases h11 : t.name = "TransformErosion"
                      · rw [if_pos h11, if_pos h11]; rfl
                      · rw [if_neg h11, if_neg h11]
                        by_cases h12 : t.name = "TransformResize"
                        · rw [if_pos h12, if_pos h12]; rfl
                        · rw [if_neg h12, if_neg h12]
                          by_cases h13 : t.name = "BatchTransformShift"
                          · rw [if_pos h13, if_pos h13]; rfl
                          · rw [if_neg h13, if_neg h13]
                            by_cases h14 : t.name = "TransformRandomBolding"
                            · rw [if_pos h14, if_pos h14]; rfl
                            · rw [if_neg h14, if_neg h14]
                              exact (List.append_nil acc).symm

theorem builder_foldl_eq (cfg : List TransformConf) (acc : List TransformUnit) :
    cfg.foldl builderStep acc = acc ++ cfg.filterMap recognizeTransform := by
  induction cfg generalizing acc with
  | nil => simp
  | cons t ts ih =>
    rw [List.foldl_cons, builder_step_eq, ih, List.filterMap_cons]
    cases recognizeTransform t <;> simp

/-- C6: the pipeline builder constructs one unit per entry whose name is a
recognized transform identifier, in configuration order, silently skips every
entry with an unrecognized name (the build succeeds, the entry contributes no
unit), and appends the tensor-materializer unit at the end iff the `ovino_ir`
flag is not set. -/
theorem create_list_of_transforms_spec (transforms_list : List TransformConf)
    (ovino_ir : Bool) :
    create_list_of_transforms transforms_list ovino_ir
      = transforms_list.filterMap recognizeTransform
        ++ (if ovino_ir then [] else [TransformUnit.batchToTensor]) ∧
    ∀ t : TransformConf, (recognizeTransform t).isSome ↔ t.name ∈ recognizedNames := by
  constructor
  · rw [create_list_of_transforms, builder_foldl_eq, List.nil_append]
    cases ovino_ir <;> simp
  · intro t
    unfold recognizeTransform recognizedNames
    by_cases h1 : t.name = "BatchResizePad"
    · simp [h1]
    by_cases h2 : t.name = "BatchCropPad"
    · simp [h1, h2]
    by_cases h3 : t.name = "BatchTransformBin"
    · simp [h1, h2, h3]
    by_cases h4 : t.name = "BatchTransformBlur"
    · simp [h1, h2, h3, h4]
    by_cases h5 : t.name = "BatchTransformPad"
    · simp [h1, h2, h3, h4, h5]
    by_cases h6 : t.name = "BatchTransformRandomNoise"
    · simp [h1, h2, h3, h4, h5, h6]
    by_cases h7 : t.name = "BatchTransformRescale"
    · simp [h1, h2, h3, h4, h5, h6, h7]
    by_cases h8 : t.name = "BatchTransformRotate"
    · simp [h1, h2, h3, h4, h5, h6, h7, h8]
    by_cases h9 : t.name = "BatchTransfromAdaptiveBin"
    · simp [h1, h2, h3, h4, h5, h6, h7, h8, h9]
    by_cases h10 : t.name = "TransformDilation"
    · simp [h1, h2, h3, h4, h5, h6, h7, h8, h9, h10]
    by_cases h11 : t.name = "TransformErosion"
    · simp [h1, h2, h3, h4, h5, h6, h7, h8, h9, h10, h11]
    by_cases h12 : t.name = "TransformResize"
    · simp [h1, h2, h3, h4, h5, h6, h7, h8, h9, h10, h11, h12]
    by_cases h13 : t.name = "BatchTransformShift"
    · simp [h1, h2, h3, h4, h5, h6, h7, h8, h9, h10, h11, h12, h13]
    by_cases h14 : t.name = "TransformRandomBolding"
    · simp [h1, h2, h3, h4, h5, h6, h7, h8, h9, h10, h11, h12, h13, h14]
    · simp [h1, h2, h3, h4, h5, h6, h7, h8, h9, h10, h11, h12, h13, h14]

/-! ## The tokenizer bridge `formulas2tensor` -/

/-- Helper for Python's no-argument `str.split()`: walk the characters,
collecting the current token in `acc` (reversed), breaking on every run of
whitespace and dropping empty tokens. -/
def pySplitAux : List Char → List Char → List String
  | [], acc => if acc = [] then [] else [String.mk acc.reverse]
  | c :: cs, acc =>
    if c.isWhitespace then
      if acc = [] then pySplitAux cs []
      else String.mk acc.reverse :: pySplitAux cs []
    else pySplitAux cs (c :: acc)

/-- Python `formula.split()`: whitespace tokenization. -/
def pySplit (s : String) : List String := pySplitAux s.data []

/-- Write `v` at index `j` of a row (`tensors[i][j] = v`); `none` when `j` is
out of range, the `IndexError` of the source. -/
def listSet {α : Type _} : List α → Nat → α → Option (List α)
  | [], _, _ => none
  | _ :: xs, 0, v => some (v :: xs)
  | x :: xs, j + 1, v => (listSet xs j v).map (fun ys => x :: ys)

/-- Inner loop of `formulas2tensor`,
`for j, sign in enumerate(formula): tensors[i][j] = sign2id.get(sign, UNK_TOKEN)`,
resumed at column `j`. -/
def fillRowFrom (sign2id : String → Option ℤ) (UNK_TOKEN : ℤ) :
    Nat → List ℤ → List String → Option (List ℤ)
  | _, row, [] => some row
  | j, row, sign :: rest =>
    match listSet row j ((sign2id sign).getD UNK_TOKEN) with
    | some row2 => fillRowFrom sign2id UNK_TOKEN (j + 1) row2 rest
    | none => none

/-- `formulas2tensor(formulas, sign2id)`: the width is taken from the FIRST
formula (`max_len = len(formulas[0])`), the matrix is initialized to
`PAD_TOKEN` (`torch.ones(batch_size, max_len) * PAD_TOKEN`), and cell `(i, j)`
is overwritten with the id of token `j` of formula `i` (`UNK_TOKEN` when
`sign2id` lacks the token).  `none` models the raising calls: `formulas[0]`
on an empty list, or the out-of-range write when a formula has more tokens
than the first.  Row `i` of the tensor is written only by formula `i`, so the
two nested loops are the per-row fill sequenced over the rows. -/
def formulas2tensor (PAD_TOKEN UNK_TOKEN : ℤ) (sign2id : String → Option ℤ)
    (formulas : List String) : Option (List (List ℤ)) :=
  match formulas.map pySplit with
  | [] => none
  | t0 :: rest =>
    optMapM
      (fun t => fillRowFrom sign2id UNK_TOKEN 0 (List.replicate t0.length PAD_TOKEN) t)
      (t0 :: rest)

theorem listSet_lt {α : Type _} (row : List α) (j : Nat) (v : α) (h : j < row.length) :
    listSet row j v = some (row.set j v) := by
  induction row generalizing j with
  | nil => simp at h
  | cons x xs ih =>
    cases j with
    | zero => rfl
    | succ n => simp [listSet, ih n (by simpa using h)]

theorem listSet_ge {α : Type _} (row : List α) (j : Nat) (v : α) (h : row.length ≤ j) :
    listSet row j v = none := by
  induction row generalizing j with
  | nil => rfl
  | cons x xs ih =>
    cases j with
    | zero => simp at h
    | succ n => simp [listSet, ih n (by simpa using h)]

theorem getD_set_ne {α : Type _} (l : List α) (i k : Nat) (a d : α) (h : i ≠ k) :
    (l.set i a).getD k d = l.getD k d := by
  rw [List.getD_eq_getElem?_getD, List.getD_eq_getElem?_getD, List.getElem?_set_ne h]

theorem getD_set_self {α : Type _} (l : List α) (i : Nat) (a d : α) (h : i < l.length) :
    (l.set i a).getD i d = a := by
  rw [List.getD_eq_getElem?_getD, List.getElem?_set]
  simp [h]

theorem fillRowFrom_some (sign2id : String → Option ℤ) (UNK_TOKEN : ℤ) (toks : List String)
    (j : Nat) (row : List ℤ) (h : j + toks.length ≤ row.length) :
    ∃ r, fillRowFrom sign2id UNK_TOKEN j row toks = some r ∧ r.length = row.length ∧
      (∀ k, k < j → r.getD k 0 = row.getD k 0) ∧
      (∀ m, m < toks.length →
        r.getD (j + m) 0 = (sign2id (toks.getD m "")).getD UNK_TOKEN) ∧
      (∀ k, j + toks.length ≤ k → r.getD k 0 = row.getD k 0) := by
  induction toks generalizing j row with
  | nil =>
    exact ⟨row, rfl, rfl, fun _ _ => rfl, fun m hm => by simp at hm, fun _ _ => rfl⟩
  | cons sign rest ih =>
    have hj : j < row.length := by simp at h; omega
    have hset := listSet_lt row j ((sign2id sign).getD UNK_TOKEN) hj
    have h2 : (j + 1) + rest.length ≤ (row.set j ((sign2id sign).getD UNK_TOKEN)).length := by
      rw [List.length_set]; simp at h; omega
    obtain ⟨r, hr, hlen, hlow, hmid, hhigh⟩ := ih (j + 1) _ h2
    refine ⟨r, ?_, ?_, ?_, ?_, ?_⟩
    · rw [fillRowFrom, hset]
      exact hr
    · rw [hlen, List.length_set]
    · intro k hk
      rw [hlow k (by omega), getD_set_ne _ _ _ _ _ (by omega)]
    · intro m hm
      cases m with
      | zero =>
        have := hlow j (by omega)
        rw [Nat.add_zero, this, getD_set_self _ _ _ _ hj]
        rfl
      | succ m2 =>
        have hm2 : m2 < rest.length := by simpa using hm
        have := hmid m2 hm2
        have harith : j + (m2 + 1) = (j + 1) + m2 := by omega
        rw [harith, this]
        rfl
    · intro k hk
      have hk2 : (j + 1) + rest.length ≤ k := by simp at hk ⊢; omega
      rw [hhigh k hk2, getD_set_ne _ _ _ _ _ (by omega)]

theorem fillRowFrom_none (sign2id : String → Option ℤ) (UNK_TOKEN : ℤ) (toks : List String)
    (j : Nat) (row : List ℤ) (h : row.length < j + toks.length) (hne : toks ≠ []) :
    fillRowFrom sign2id UNK_TOKEN j row toks = none := by
  induction toks generalizing j row with
  | nil => exact absurd rfl hne
  | cons sign rest ih =>
    by_cases hj : j < row.length
    · rw [fillRowFrom, listSet_lt row j ((sign2id sign).getD UNK_TOKEN) hj]
      cases rest with
      | nil => simp at h; omega
      | cons s2 r2 =>
        apply ih
        · rw [List.length_set]; simp at h ⊢; omega
        · simp
    · rw [fillRowFrom, listSet_ge row j ((sign2id sign).getD UNK_TOKEN) (by omega)]

theorem forall₂_getD {α β : Type _} {Q : α → β → Prop} {l : List α} {r : List β}
    (h : List.Forall₂ Q l r) (i : Nat) (hi : i < l.length) (da : α) (db : β) :
    Q (l.getD i da) (r.getD i db) := by
  induction h generalizing i with
  | nil => simp at hi
  | cons hq htail ih =>
    cases i with
    | zero => simpa using hq
    | succ n => simpa using ih n (by simpa using hi)

theorem optMapM_some_of_forall {α β : Type _} (f : α → Option β) (P : α → β → Prop)
    (l : List α) (h : ∀ a ∈ l, ∃ b, f a = some b ∧ P a b) :
    ∃ r, optMapM f l = some r ∧ List.Forall₂ (fun a b => f a = some b ∧ P a b) l r := by
  induction l with
  | nil => exact ⟨[], rfl, List.Forall₂.nil⟩
  | cons a as ih =>
    obtain ⟨b, hb, hP⟩ := h a (by simp)
    obtain ⟨r, hr, hf⟩ := ih (fun x hx => h x (by simp [hx]))
    refine ⟨b :: r, ?_, List.Forall₂.cons ⟨hb, hP⟩ hf⟩
    simp [optMapM, hb, hr]

theorem getD_replicate_lt {α : Type _} (n k : Nat) (a d : α) (h : k < n) :
    (List.replicate n a).getD k d = a := by
  rw [List.getD_eq_getElem?_getD, List.getElem?_replicate]
  simp [h]

/-- C1 (amended): for every NON-EMPTY formula list in which no formula has
more whitespace tokens than the FIRST, and every vocabulary mapping,
`formulas2tensor` returns an integer matrix with one row per formula whose
column count equals the token count of the first formula only, initialized to
the PAD id, cell `(i, j)` holding the vocabulary id of token `j` of formula
`i` (the UNK id when the token is absent from the vocabulary) and the PAD id
beyond formula `i`'s tokens.  On a list in which a later formula is longer
than the first the call raises instead of returning (see the
counterexample). -/
theorem formulas2tensor_first_row_width (PAD_TOKEN UNK_TOKEN : ℤ)
    (sign2id : String → Option ℤ) (f0 : String) (rest : List String)
    (hle : ∀ f ∈ f0 :: rest, (pySplit f).length ≤ (pySplit f0).length) :
    ∃ M, formulas2tensor PAD_TOKEN UNK_TOKEN sign2id (f0 :: rest) = some M ∧
      M.length = (f0 :: rest).length ∧
      (∀ row ∈ M, row.length = (pySplit f0).length) ∧
      ∀ i j, i < (f0 :: rest).length → j < (pySplit f0).length →
        (M.getD i []).getD j 0 =
          if j < (pySplit ((f0 :: rest).getD i "")).length
          then (sign2id ((pySplit ((f0 :: rest).getD i "")).getD j "")).getD UNK_TOKEN
          else PAD_TOKEN := by
  have hforall : ∀ t ∈ (f0 :: rest).map pySplit,
      ∃ r, fillRowFrom sign2id UNK_TOKEN 0
          (List.replicate (pySplit f0).length PAD_TOKEN) t = some r ∧
        (r.length = (pySplit f0).length ∧
         ∀ j, j < (pySplit f0).length → r.getD j 0 =
           if j < t.length then (sign2id (t.getD j "")).getD UNK_TOKEN else PAD_TOKEN) := by
    intro t ht
    obtain ⟨f, hf, rfl⟩ := List.mem_map.mp ht
    have hlen : (pySplit f).length ≤ (pySplit f0).length := hle f hf
    obtain ⟨r, hr, hrlen, _, hmid, hhigh⟩ := fillRowFrom_some sign2id UNK_TOKEN
      (pySplit f) 0 (List.replicate (pySplit f0).length PAD_TOKEN) (by simpa using hlen)
    refine ⟨r, hr, by simpa using hrlen, ?_⟩
    intro j hj
    by_cases hjt : j < (pySplit f).length
    · have := hmid j hjt
      rw [Nat.zero_add] at this
      rw [this, if_pos hjt]
    · have := hhigh j (by omega)
      rw [this, if_neg hjt, getD_replicate_lt _ _ _ _ hj]
  obtain ⟨M, hM, hf2⟩ := optMapM_some_of_forall _ _ ((f0 :: rest).map pySplit) hforall
  have hlen2 : M.length = (f0 :: rest).length := by
    have := hf2.length_eq
    simpa using this.symm
  have hMeq : formulas2tensor PAD_TOKEN UNK_TOKEN sign2id (f0 :: rest) = some M := by
    rw [formulas2tensor]
    simp only [List.map_cons]
    rw [← List.map_cons]
    exact hM
  refine ⟨M, hMeq, hlen2, ?_, ?_⟩
  · intro row hrow
    obtain ⟨i, hi⟩ := List.mem_iff_getElem?.mp hrow
    have hiM : i < M.length := by
      by_contra hc
      rw [List.getElem?_eq_none (by omega)] at hi
      simp at hi
    have hilen : i < ((f0 :: rest).map pySplit).length := by
      rw [List.length_map, ← hlen2]; exact hiM
    have := forall₂_getD hf2 i hilen ([] : List String) ([] : List ℤ)
    have hrowD : M.getD i [] = row := by rw [List.getD_eq_getElem?_getD, hi]; rfl
    rw [← hrowD]
    exact (this.2).1
  · intro i j hi hj
    have hilen : i < ((f0 :: rest).map pySplit).length := by simpa using hi
    have hP := (forall₂_getD hf2 i hilen ([] : List String) ([] : List ℤ)).2.2 j hj
    rw [getD_map_lt pySplit (f0 :: rest) i "" ([] : List String) (by simpa using hi)] at hP
    exact hP

/-- Vocabulary `{a: 1, b: 2, c: 3}` of the spec's example, as the lookup the
source consumes through `sign2id.get(sign, UNK_TOKEN)`. -/
def vocabABC : String → Option ℤ := fun s =>
  if s = "a" then some 1 else if s = "b" then some 2 else if s = "c" then some 3 else none

/-- Witness: `formulas2tensor(["a b c"], {a:1,b:2,c:3})` with PAD id 0 and
UNK id -1 satisfies the characterization, and the matrix is `[[1, 2, 3]]`. -/
theorem formulas2tensor_first_row_width_witness :
    (∃ M, formulas2tensor 0 (-1) vocabABC ["a b c"] = some M ∧
      M.length = (["a b c"] : List String).length ∧
      (∀ row ∈ M, row.length = (pySplit "a b c").length) ∧
      ∀ i j, i < (["a b c"] : List String).length → j < (pySplit "a b c").length →
        (M.getD i []).getD j 0 =
          if j < (pySplit ((["a b c"] : List String).getD i "")).length
          then (vocabABC ((pySplit ((["a b c"] : List String).getD i "")).getD j "")).getD (-1)
          else 0) ∧
    formulas2tensor 0 (-1) vocabABC ["a b c"] = some [[1, 2, 3]] :=
  ⟨formulas2tensor_first_row_width 0 (-1) vocabABC "a b c" [] (by decide), by decide⟩

/-- Counterexample to C1 as stated: on `["a", "b c"]` — a non-empty list of
whitespace-tokenized formulas whose second formula has more tokens than the
first — `formulas2tensor` raises (an out-of-range write, modelled `none`)
instead of returning an integer matrix. -/
theorem formulas2tensor_longer_later_fails :
    formulas2tensor 0 (-1) vocabABC ["a", "b c"] = none := by decide

/-! ## The collator `collate_fn` -/

/-- One raw dataset record, the `{img, formula, img_name}` dict interface the
collator consumes. -/
structure BatchRecord where
  img : Image
  formula : String
  img_name : String
  deriving DecidableEq

instance : Inhabited BatchRecord := ⟨⟨[], "", ""⟩⟩

/-- Sort key of the collator: `len(img_formula['formula'].split())`. -/
def formulaLen (r : BatchRecord) : Nat := (pySplit r.formula).length

/-- The collator's reject-filter,
`[img_formula for img_formula in batch if img_formula['img'].shape == size]`
with `size = batch[0]['img'].shape`: keep exactly the records whose raw image
shape equals the first record's. -/
def shapeFilter (b0 : BatchRecord) (batch : List BatchRecord) : List BatchRecord :=
  batch.filter (fun img_formula => decide (Image.shape img_formula.img = Image.shape b0.img))

/-- Insertion of a record into an already-processed list, after every record
of strictly greater key and before all others.  `sortDesc` built from it is
the unique stable descending sort — the semantics of Python's stable
`batch.sort(key=lambda f: len(f['formula'].split()), reverse=True)` — which
the lemmas below prove (sorted, a permutation, ties in input order). -/
def insertDesc (x : BatchRecord) : List BatchRecord → List BatchRecord
  | [] => [x]
  | y :: ys => if formulaLen x < formulaLen y then y :: insertDesc x ys else x :: y :: ys

/-- Stable descending sort by `formulaLen`. -/
def sortDesc : List BatchRecord → List BatchRecord
  | [] => []
  | x :: xs => insertDesc x (sortDesc xs)

/-- `collate_fn(sign2id, batch, batch_transform=...)`: filter to the first
record's raw image shape, stable-sort by descending token count, tokenize via
`formulas2tensor`, apply the optional transform chain to the image list
(`torch.stack` is the identity packaging of that list), and build the two
shifted target matrices (`START` column prepended for `tgt4training`, `END`
column appended for `tgt4cal_loss`).  `none` models the raising calls:
`batch[0]` of an empty batch, or `formulas2tensor` failing. -/
def collate_fn (PAD_TOKEN UNK_TOKEN START_TOKEN END_TOKEN : ℤ)
    (sign2id : String → Option ℤ) (batch : List BatchRecord)
    (batch_transform : Option (List Image → List Image)) :
    Option (List String × List Image × List (List ℤ) × List (List ℤ)) :=
  match batch with
  | [] => none
  | b0 :: _ =>
    let batch2 := shapeFilter b0 batch
    let batch3 := sortDesc batch2
    let imgs := batch3.map (fun item => item.img)
    let formulas := batch3.map (fun item => item.formula)
    let img_names := batch3.map (fun item => item.img_name)
    match formulas2tensor PAD_TOKEN UNK_TOKEN sign2id formulas with
    | none => none
    | some formulas_tensor =>
      let imgs2 := match batch_transform with
        | some t => t imgs
        | none => imgs
      let tgt4training := formulas_tensor.map (fun row => START_TOKEN :: row)
      let tgt4cal_loss := formulas_tensor.map (fun row => row ++ [END_TOKEN])
      some (img_names, imgs2, tgt4training, tgt4cal_loss)

theorem insertDesc_perm (x : BatchRecord) (l : List BatchRecord) :
    List.Perm (insertDesc x l) (x :: l) := by
  induction l with
  | nil => exact List.Perm.refl _
  | cons y ys ih =>
    rw [insertDesc]
    by_cases hxy : formulaLen x < formulaLen y
    · rw [if_pos hxy]
      exact (List.Perm.cons y ih).trans (List.Perm.swap x y ys)
    · rw [if_neg hxy]

theorem sortDesc_perm (l : List BatchRecord) : List.Perm (sortDesc l) l := by
  induction l with
  | nil => exact List.Perm.refl _
  | cons x xs ih =>
    exact (insertDesc_perm x (sortDesc xs)).trans (List.Perm.cons x ih)

theorem insertDesc_sorted (x : BatchRecord) (l : List BatchRecord)
    (h : List.Sorted (fun a b => formulaLen b ≤ formulaLen a) l) :
    List.Sorted (fun a b => formulaLen b ≤ formulaLen a) (insertDesc x l) := by
  induction l with
  | nil => simp [insertDesc]
  | cons y ys ih =>
    rw [insertDesc]
    by_cases hxy : formulaLen x < formulaLen y
    · rw [if_pos hxy]
      apply List.sorted_cons.mpr
      refine ⟨?_, ih (List.sorted_cons.mp h).2⟩
      intro z hz
      have hz2 : z ∈ x :: ys := (insertDesc_perm x ys).mem_iff.mp hz
      rcases List.mem_cons.mp hz2 with rfl | hz3
      · omega
      · exact (List.sorted_cons.mp h).1 z hz3
    · rw [if_neg hxy]
      apply List.sorted_cons.mpr
      refine ⟨?_, h⟩
      intro z hz
      rcases List.mem_cons.mp hz with rfl | hz2
      · omega
      · have := (List.sorted_cons.mp h).1 z hz2
        omega

theorem sortDesc_sorted (l : List BatchRecord) :
    List.Sorted (fun a b => formulaLen b ≤ formulaLen a) (sortDesc l) := by
  induction l with
  | nil => simp [sortDesc]
  | cons x xs ih => exact insertDesc_sorted x (sortDesc xs) ih

theorem insertDesc_filter_eq (x : BatchRecord) (l : List BatchRecord) (k : Nat)
    (hk : formulaLen x = k) :
    (insertDesc x l).filter (fun r => formulaLen r == k)
      = x :: l.filter (fun r => formulaLen r == k) := by
  induction l with
  | nil => simp [insertDesc, hk]
  | cons y ys ih =>
    rw [insertDesc]
    by_cases hxy : formulaLen x < formulaLen y
    · rw [if_pos hxy]
      have hy : ¬ (formulaLen y == k) = true := by simp; omega
      rw [@List.filter_cons_of_neg _ (fun r => formulaLen r == k) y (insertDesc x ys) hy, ih,
        @List.filter_cons_of_neg _ (fun r => formulaLen r == k) y ys hy]
    · rw [if_neg hxy]
      rw [@List.filter_cons_of_pos _ (fun r => formulaLen r == k) x (y :: ys) (by simp [hk])]

theorem insertDesc_filter_ne (x : BatchRecord) (l : List BatchRecord) (k : Nat)
    (hk : formulaLen x ≠ k) :
    (insertDesc x l).filter (fun r => formulaLen r == k)
      = l.filter (fun r => formulaLen r == k) := by
  induction l with
  | nil => simp [insertDesc, hk]
  | cons y ys ih =>
    rw [insertDesc]
    by_cases hxy : formulaLen x < formulaLen y
    · rw [if_pos hxy]
      by_cases hy : (formulaLen y == k) = true
      · rw [@List.filter_cons_of_pos _ (fun r => formulaLen r == k) y (insertDesc x ys) hy, ih,
          @List.filter_cons_of_pos _ (fun r => formulaLen r == k) y ys hy]
      · rw [@List.filter_cons_of_neg _ (fun r => formulaLen r == k) y (insertDesc x ys) hy, ih,
          @List.filter_cons_of_neg _ (fun r => formulaLen r == k) y ys hy]
    · rw [if_neg hxy]
      rw [@List.filter_cons_of_neg _ (fun r => formulaLen r == k) x (y :: ys) (by simpa using hk)]

theorem sortDesc_stable (l : List BatchRecord) (k : Nat) :
    (sortDesc l).filter (fun r => formulaLen r == k)
      = l.filter (fun r => formulaLen r == k) := by
  induction l with
  | nil => rfl
  | cons x xs ih =>
    rw [sortDesc]
    by_cases hk : formulaLen x = k
    · rw [insertDesc_filter_eq x _ k hk, ih,
        @List.filter_cons_of_pos _ (fun r => formulaLen r == k) x xs (by simp [hk])]
    · rw [insertDesc_filter_ne x _ k hk, ih,
        @List.filter_cons_of_neg _ (fun r => formulaLen r == k) x xs (by simpa using hk)]

theorem shapeFilter_head_mem (b0 : BatchRecord) (rest : List BatchRecord) :
    b0 ∈ shapeFilter b0 (b0 :: rest) := by
  simp [shapeFilter]

theorem sortDesc_ne_nil (l : List BatchRecord) (h : l ≠ []) : sortDesc l ≠ [] := by
  intro hc
  have := (sortDesc_perm l).length_eq
  rw [hc] at this
  exact h (List.length_eq_zero.mp this.symm)

theorem sortDesc_head_le (l : List BatchRecord) :
    ∀ r ∈ sortDesc l, formulaLen r ≤ formulaLen ((sortDesc l).headD default) := by
  cases hS : sortDesc l with
  | nil => simp
  | cons s0 tail =>
    intro r hr
    have hsorted := sortDesc_sorted l
    rw [hS] at hsorted
    rcases List.mem_cons.mp hr with rfl | hr2
    · simp
    · simpa using (List.sorted_cons.mp hsorted).1 r hr2

theorem collate_formulas_precond (b0 : BatchRecord) (rest : List BatchRecord) :
    (sortDesc (shapeFilter b0 (b0 :: rest))).map (fun item => item.formula) ≠ [] ∧
    ∀ f ∈ (sortDesc (shapeFilter b0 (b0 :: rest))).map (fun item => item.formula),
      (pySplit f).length ≤
        (pySplit (((sortDesc (shapeFilter b0 (b0 :: rest))).map
          (fun item => item.formula)).headD "")).length := by
  have hne : sortDesc (shapeFilter b0 (b0 :: rest)) ≠ [] :=
    sortDesc_ne_nil _ (List.ne_nil_of_mem (shapeFilter_head_mem b0 rest))
  obtain ⟨s0, tail, hS⟩ := List.exists_cons_of_ne_nil hne
  constructor
  · rw [hS]; simp
  · intro f hf
    rw [hS] at hf ⊢
    simp only [List.map_cons, List.headD_cons]
    obtain ⟨r, hr, rfl⟩ := List.mem_map.mp hf
    have := sortDesc_head_le (shapeFilter b0 (b0 :: rest)) r (by rw [hS]; exact hr)
    rw [hS] at this
    simpa [formulaLen] using this

/-- C2: for every raw batch surviving the shape filter, the collator sorts
the records by whitespace token count of their formula, descending and stably
(records of equal count keep their input order: the filtered subsequence at
every key value is unchanged), and emits `tgt4training` equal to the
tokenized matrix with a `START` column prepended and `tgt4cal_loss` equal to
the tokenized matrix with an `END` column appended, both with one row of
length `max_len + 1` per sorted record and row-aligned with the sorted names
and images. -/
theorem collate_fn_shifted_targets (PAD_TOKEN UNK_TOKEN START_TOKEN END_TOKEN : ℤ)
    (sign2id : String → Option ℤ) (b0 : BatchRecord) (rest : List BatchRecord)
    (batch_transform : Option (List Image → List Image))
    (S : List BatchRecord) (hS : S = sortDesc (shapeFilter b0 (b0 :: rest))) :
    ∃ M, formulas2tensor PAD_TOKEN UNK_TOKEN sign2id
        (S.map (fun item => item.formula)) = some M ∧
      collate_fn PAD_TOKEN UNK_TOKEN START_TOKEN END_TOKEN sign2id (b0 :: rest)
          batch_transform
        = some (S.map (fun item => item.img_name),
            (match batch_transform with
             | some t => t (S.map (fun item => item.img))
             | none => S.map (fun item => item.img)),
            M.map (fun row => START_TOKEN :: row),
            M.map (fun row => row ++ [END_TOKEN])) ∧
      List.Sorted (fun a b => formulaLen b ≤ formulaLen a) S ∧
      (∀ k, S.filter (fun r => formulaLen r == k)
         = (shapeFilter b0 (b0 :: rest)).filter (fun r => formulaLen r == k)) ∧
      List.Perm S (shapeFilter b0 (b0 :: rest)) ∧
      M.length = S.length ∧
      (∀ row ∈ M.map (fun row => START_TOKEN :: row),
          row.length = formulaLen (S.headD default) + 1) ∧
      (∀ row ∈ M.map (fun row => row ++ [END_TOKEN]),
          row.length = formulaLen (S.headD default) + 1) := by
  subst hS
  have hne : sortDesc (shapeFilter b0 (b0 :: rest)) ≠ [] :=
    sortDesc_ne_nil _ (List.ne_nil_of_mem (shapeFilter_head_mem b0 rest))
  obtain ⟨s0, tail, hcons⟩ := List.exists_cons_of_ne_nil hne
  have hpre := (collate_formulas_precond b0 rest).2
  rw [hcons] at hpre
  simp only [List.map_cons, List.headD_cons] at hpre
  obtain ⟨M, hM, hMlen, hRows, _⟩ := formulas2tensor_first_row_width PAD_TOKEN UNK_TOKEN
    sign2id s0.formula (tail.map (fun item => item.formula)) hpre
  rw [← List.map_cons] at hM
  refine ⟨M, by rw [hcons]; exact hM, ?_, ?_, ?_, ?_, ?_, ?_, ?_⟩
  · rw [collate_fn.eq_def]
    simp only [hcons, hM]
  · rw [hcons] at hne ⊢
    rw [← hcons]
    exact sortDesc_sorted _
  · intro k
    exact sortDesc_stable _ k
  · exact sortDesc_perm _
  · rw [hcons, hMlen]
    simp
  · intro row hrow
    obtain ⟨row2, hrow2, rfl⟩ := List.mem_map.mp hrow
    have := hRows row2 hrow2
    rw [hcons]
    simp only [List.headD_cons, List.length_cons, this, formulaLen]
  · intro row hrow
    obtain ⟨row2, hrow2, rfl⟩ := List.mem_map.mp hrow
    have := hRows row2 hrow2
    rw [hcons]
    simp only [List.headD_cons, List.length_append, List.length_cons, this, formulaLen,
      List.length_nil]

/-- Records for the collator witnesses: same `1 × 1` raw image shape,
formulas of one and two tokens. -/
def recA : BatchRecord := ⟨[[1]], "a", "x"⟩

def recAB : BatchRecord := ⟨[[2]], "a b", "y"⟩

/-- Witness: the collator on the batch `[recA, recAB]` (equal raw shapes,
token counts 1 and 2) sorts to `[recAB, recA]` and emits the shifted
targets. -/
theorem collate_fn_shifted_targets_witness :
    ∃ M, formulas2tensor 0 (-1) vocabABC
        (([recAB, recA] : List BatchRecord).map (fun item => item.formula)) = some M ∧
      collate_fn 0 (-1) 8 9 vocabABC (recA :: [recAB]) none
        = some (([recAB, recA] : List BatchRecord).map (fun item => item.img_name),
            (match (none : Option (List Image → List Image)) with
             | some t => t (([recAB, recA] : List BatchRecord).map (fun item => item.img))
             | none => ([recAB, recA] : List BatchRecord).map (fun item => item.img)),
            M.map (fun row => (8 : ℤ) :: row),
            M.map (fun row => row ++ [(9 : ℤ)])) ∧
      List.Sorted (fun a b => formulaLen b ≤ formulaLen a) [recAB, recA] ∧
      (∀ k, ([recAB, recA] : List BatchRecord).filter (fun r => formulaLen r == k)
         = (shapeFilter recA (recA :: [recAB])).filter (fun r => formulaLen r == k)) ∧
      List.Perm [recAB, recA] (shapeFilter recA (recA :: [recAB])) ∧
      M.length = ([recAB, recA] : List BatchRecord).length ∧
      (∀ row ∈ M.map (fun row => (8 : ℤ) :: row),
          row.length = formulaLen (([recAB, recA] : List BatchRecord).headD default) + 1) ∧
      (∀ row ∈ M.map (fun row => row ++ [(9 : ℤ)]),
          row.length = formulaLen (([recAB, recA] : List BatchRecord).headD default) + 1) :=
  collate_fn_shifted_targets 0 (-1) 8 9 vocabABC recA [recAB] none [recAB, recA] (by decide)

/-- Counterexample to C4 as stated: no non-empty raw batch is filtered to the
empty list, because the first record always passes its own shape test — the
pruning can never produce zero records. -/
theorem shapeFilter_never_empties :
    ¬ ∃ (b0 : BatchRecord) (rest : List BatchRecord), shapeFilter b0 (b0 :: rest) = [] := by
  rintro ⟨b0, rest, h⟩
  exact (List.ne_nil_of_mem (shapeFilter_head_mem b0 rest)) h

/-- C4 (amended): the reject-filter keeps exactly the records whose raw image
shape equals the first record's raw image shape, silently and in input order
(a sublist), and the pruning can shrink the batch (the heterogeneous batch in
the second conjunct loses a record) — but never to zero records: the first
record always survives, so a non-empty raw batch filters to a non-empty
batch. -/
theorem shapeFilter_spec :
    (∀ (b0 : BatchRecord) (rest : List BatchRecord),
      (∀ r ∈ shapeFilter b0 (b0 :: rest), Image.shape r.img = Image.shape b0.img) ∧
      (∀ r ∈ b0 :: rest, Image.shape r.img = Image.shape b0.img →
        r ∈ shapeFilter b0 (b0 :: rest)) ∧
      List.Sublist (shapeFilter b0 (b0 :: rest)) (b0 :: rest) ∧
      b0 ∈ shapeFilter b0 (b0 :: rest) ∧ shapeFilter b0 (b0 :: rest) ≠ []) ∧
    (shapeFilter recA (recA :: [⟨[[3], [4]], "z", "w"⟩])).length < 2 := by
  constructor
  · intro b0 rest
    refine ⟨?_, ?_, List.filter_sublist _, shapeFilter_head_mem b0 rest,
      List.ne_nil_of_mem (shapeFilter_head_mem b0 rest)⟩
    · intro r hr
      simp only [shapeFilter, List.mem_filter, decide_eq_true_eq] at hr
      exact hr.2
    · intro r hr hshape
      simp only [shapeFilter, List.mem_filter, decide_eq_true_eq]
      exact ⟨hr, hshape⟩
  · decide

theorem fillRow_isSome_iff (sign2id : String → Option ℤ) (UNK_TOKEN PAD_TOKEN : ℤ)
    (L : Nat) (t : List String) :
    (fillRowFrom sign2id UNK_TOKEN 0 (List.replicate L PAD_TOKEN) t).isSome ↔
      t.length ≤ L := by
  constructor
  · intro h
    by_contra hc
    push_neg at hc
    have hne : t ≠ [] := by
      intro he
      rw [he] at hc
      simp at hc
    rw [fillRowFrom_none sign2id UNK_TOKEN t 0 _ (by simpa using hc) hne] at h
    simp at h
  · intro h
    obtain ⟨r, hr, _⟩ := fillRowFrom_some sign2id UNK_TOKEN t 0 (List.replicate L PAD_TOKEN)
      (by simpa using h)
    simp [hr]

theorem formulas2tensor_isSome_iff (PAD_TOKEN UNK_TOKEN : ℤ) (sign2id : String → Option ℤ)
    (formulas : List String) :
    (formulas2tensor PAD_TOKEN UNK_TOKEN sign2id formulas).isSome ↔
      (formulas ≠ [] ∧ ∀ f ∈ formulas,
        (pySplit f).length ≤ (pySplit (formulas.headD "")).length) := by
  cases formulas with
  | nil => simp [formulas2tensor]
  | cons f0 r =>
    have heq : formulas2tensor PAD_TOKEN UNK_TOKEN sign2id (f0 :: r)
        = optMapM (fun t => fillRowFrom sign2id UNK_TOKEN 0
            (List.replicate (pySplit f0).length PAD_TOKEN) t)
            (pySplit f0 :: r.map pySplit) := by
      rw [formulas2tensor]
      simp only [List.map_cons]
    rw [heq, optMapM_isSome_iff]
    simp only [List.headD_cons]
    constructor
    · intro h
      refine ⟨by simp, ?_⟩
      intro f hf
      have hmem : pySplit f ∈ pySplit f0 :: r.map pySplit := by
        rcases List.mem_cons.mp hf with rfl | hf2
        · simp
        · exact List.mem_cons_of_mem _ (List.mem_map.mpr ⟨f, hf2, rfl⟩)
      exact (fillRow_isSome_iff sign2id UNK_TOKEN PAD_TOKEN _ _).mp (h _ hmem)
    · rintro ⟨-, h2⟩ t ht
      rcases List.mem_cons.mp ht with rfl | ht2
      · exact (fillRow_isSome_iff sign2id UNK_TOKEN PAD_TOKEN _ _).mpr (h2 f0 (by simp))
      · obtain ⟨f, hf, rfl⟩ := List.mem_map.mp ht2
        exact (fillRow_isSome_iff sign2id UNK_TOKEN PAD_TOKEN _ _).mpr
          (h2 f (List.mem_cons_of_mem _ hf))

/-- C10: `formulas2tensor` is total exactly on the non-empty formula lists in
which no formula has more whitespace tokens than the first (on any other list
it raises instead of widening or truncating), and the collator establishes
this precondition at the only call site: for every non-empty raw batch, the
formula list it passes — the formulas of the shape-filtered, descending
sorted records — makes the call succeed. -/
theorem formulas2tensor_totality :
    (∀ (PAD_TOKEN UNK_TOKEN : ℤ) (sign2id : String → Option ℤ) (formulas : List String),
      (formulas2tensor PAD_TOKEN UNK_TOKEN sign2id formulas).isSome ↔
        (formulas ≠ [] ∧ ∀ f ∈ formulas,
          (pySplit f).length ≤ (pySplit (formulas.headD "")).length)) ∧
    (∀ (PAD_TOKEN UNK_TOKEN : ℤ) (sign2id : String → Option ℤ)
        (b0 : BatchRecord) (rest : List BatchRecord),
      (formulas2tensor PAD_TOKEN UNK_TOKEN sign2id
        ((sortDesc (shapeFilter b0 (b0 :: rest))).map (fun item => item.formula))).isSome) := by
  refine ⟨formulas2tensor_isSome_iff, ?_⟩
  intro PAD_TOKEN UNK_TOKEN sign2id b0 rest
  exact (formulas2tensor_isSome_iff PAD_TOKEN UNK_TOKEN sign2id _).mpr
    (collate_formulas_precond b0 rest)

/-! ## `BatchTransformRotate` -/

/-- A `2 × 3` affine matrix `[[a, b, c], [d, e, f]]` as OpenCV uses it. -/
structure Affine where
  a : ℚ
  b : ℚ
  c : ℚ
  d : ℚ
  e : ℚ
  f : ℚ
  deriving DecidableEq

/-- `cv.getRotationMatrix2D(center, angle, scale)`: with `α = scale·cos angle`
and `β = scale·sin angle`, the matrix
`[[α, β, (1−α)·cx − β·cy], [−β, α, β·cx + (1−α)·cy]]`; the trigonometry of
the external library enters through the already-evaluated `cosA`, `sinA`. -/
def getRotationMatrix2D (center : ℚ × ℚ) (cosA sinA scale : ℚ) : Affine :=
  let alpha := scale * cosA
  let beta := scale * sinA
  ⟨alpha, beta, (1 - alpha) * center.1 - beta * center.2,
   -beta, alpha, beta * center.1 + (1 - alpha) * center.2⟩

/-- `cv.transform` on one integer point: apply the affine map and round each
coordinate back to an integer (the source point array is integral). -/
def cvTransformPoint (M : Affine) (p : ℤ × ℤ) : ℤ × ℤ :=
  (round (M.a * (p.1 : ℚ) + M.b * (p.2 : ℚ) + M.c),
   round (M.d * (p.1 : ℚ) + M.e * (p.2 : ℚ) + M.f))

/-- `cv.boundingRect` of an integer point set:
`(xmin, ymin, xmax − xmin + 1, ymax − ymin + 1)` — with the `+1` that makes
the rectangle cover its boundary pixels (OpenCV's behaviour on point sets). -/
def boundingRect (ps : List (ℤ × ℤ)) : ℤ × ℤ × ℤ × ℤ :=
  match ps with
  | [] => (0, 0, 0, 0)
  | p :: rest =>
    let xs := (p :: rest).map (fun q => q.1)
    let ys := (p :: rest).map (fun q => q.2)
    let xmin := xs.foldl min p.1
    let xmax := xs.foldl max p.1
    let ymin := ys.foldl min p.2
    let ymax := ys.foldl max p.2
    (xmin, ymin, xmax - xmin + 1, ymax - ymin + 1)

/-- The inverse affine map `warpAffine` applies internally (zero when
singular; no claim exercises that case). -/
def invertAffine (M : Affine) : Affine :=
  let det := M.a * M.e - M.b * M.d
  if det = 0 then ⟨0, 0, 0, 0, 0, 0⟩ else
  ⟨M.e / det, -M.b / det, (M.b * M.f - M.c * M.e) / det,
   -M.d / det, M.a / det, (M.c * M.d - M.a * M.f) / det⟩

/-- Sampling of the source at an exact rational position: the pixel when the
position is an integer lattice point inside the image, the constant border
otherwise.  This agrees with OpenCV's `warpAffine` whenever the inverse map
carries the lattice to the lattice — the only case the claims exercise (pure
integer translations). -/
def sampleExact (img : Image) (p : ℚ × ℚ) : Pixel :=
  if p.1.den = 1 ∧ p.2.den = 1 ∧ 0 ≤ p.1.num ∧ p.1.num < (Image.width img : ℤ)
      ∧ 0 ≤ p.2.num ∧ p.2.num < (Image.height img : ℤ)
  then Image.pixel img p.2.num.toNat p.1.num.toNat
  else COLOR_WHITE

/-- `cv.warpAffine(img, M, dsize, borderMode=BORDER_CONSTANT,
borderValue=COLOR_WHITE)`: every destination pixel samples the source at the
inverse image of its coordinates. -/
def warpAffine (img : Image) (M : Affine) (dw dh : Nat) : Image :=
  let inv := invertAffine M
  (List.range dh).map (fun (y : Nat) =>
    (List.range dw).map (fun (x : Nat) =>
      sampleExact img (inv.a * (x : ℚ) + inv.b * (y : ℚ) + inv.c,
                       inv.d * (x : ℚ) + inv.e * (y : ℚ) + inv.f)))

/-- Class `BatchTransformRotate`: draw one angle uniformly from
`[-angle, angle)` (`np.random.uniform`, the explicit `uniform` argument),
build the rotation matrix about the FIRST image's centre, transform the four
corner points, grow the canvas to their bounding rectangle, shift the matrix
so the rotated content stays visible, and warp every image of the list with
that same matrix.  `none` models `imgs[0]` raising on an empty list. -/
def BatchTransformRotate (uniform : ℚ → ℚ → ℚ) (cosDeg sinDeg : ℚ → ℚ)
    (angle_bound : ℚ) (imgs : List Image) : Option (List Image) :=
  let angle := uniform (0 - angle_bound) angle_bound
  match imgs with
  | [] => none
  | img :: _ =>
    let h := Image.height img
    let w := Image.width img
    let center : ℚ × ℚ := (((w / 2 : Nat) : ℚ), ((h / 2 : Nat) : ℚ))
    let M := getRotationMatrix2D center (cosDeg angle) (sinDeg angle) 1
    let src : List (ℤ × ℤ) := [(0, 0), ((w : ℤ), 0), (0, (h : ℤ)), ((w : ℤ), (h : ℤ))]
    let new_pts := src.map (cvTransformPoint M)
    let bb := boundingRect new_pts
    let M2 : Affine := { M with c := M.c + (0 - bb.1), f := M.f + (0 - bb.2.1) }
    some (imgs.map (fun im => warpAffine im M2 bb.2.2.1.toNat bb.2.2.2.toNat))

theorem invertAffine_id : invertAffine ⟨1, 0, 0, 0, 1, 0⟩ = ⟨1, 0, 0, 0, 1, 0⟩ := by
  rw [invertAffine]
  norm_num

theorem warpAffine_shape (img : Image) (M : Affine) (dw dh : Nat) (hdh : 0 < dh) :
    Image.shape (warpAffine img M dw dh) = (dh, dw) := by
  obtain ⟨n, hn⟩ : ∃ n, dh = n + 1 := ⟨_, (Nat.succ_pred_eq_of_pos hdh).symm⟩
  simp [warpAffine, Image.shape, Image.height, Image.width, hn, List.range_succ_eq_map]

theorem warpAffine_id_pixel (img : Image) (dw dh : Nat) (y x : Nat)
    (hy : y < dh) (hx : x < dw) :
    Image.pixel (warpAffine img ⟨1, 0, 0, 0, 1, 0⟩ dw dh) y x
      = if x < Image.width img ∧ y < Image.height img
        then Image.pixel img y x else COLOR_WHITE := by
  simp only [warpAffine, invertAffine_id, Image.pixel]
  rw [getD_range_map _ _ _ _ hy, getD_range_map _ _ _ _ hx]
  have hxq : (1 : ℚ) * (x : ℚ) + 0 * (y : ℚ) + 0 = ((x : ℤ) : ℚ) := by push_cast; ring
  have hyq : (0 : ℚ) * (x : ℚ) + 1 * (y : ℚ) + 0 = ((y : ℤ) : ℚ) := by push_cast; ring
  rw [hxq, hyq, sampleExact]
  by_cases hin : x < Image.width img ∧ y < Image.height img
  · rw [if_pos, if_pos hin]
    · simp [Image.pixel]
    · refine ⟨Rat.den_intCast _, Rat.den_intCast _, ?_, ?_, ?_, ?_⟩ <;>
        simp [Rat.num_intCast] <;> omega
  · rw [if_neg, if_neg hin]
    intro hcond
    apply hin
    obtain ⟨-, -, -, hxlt, -, hylt⟩ := hcond
    rw [Rat.num_intCast] at hxlt hylt
    constructor <;> omega

/-- C8 (amended): the Rotate filter with angle bound 0 draws angle 0 and
applies the identity rotation, but the canvas still grows by one pixel in
each dimension because `cv.boundingRect` of the four transformed corner
points spans `w + 1` columns and `h + 1` rows: for every square input image
the output shape is `(H + 1, W + 1)` — NOT the input shape (see the
counterexample) — with the input's pixel content unchanged on
`[0, H) × [0, W)` and the extra last row and column background-filled. -/
theorem rotate_zero_aux (uniform : ℚ → ℚ → ℚ) (cosDeg sinDeg : ℚ → ℚ) (img : Image)
    (hu : ∀ lo hi, lo ≤ hi → lo ≤ uniform lo hi ∧ uniform lo hi ≤ hi)
    (hcos : cosDeg 0 = 1) (hsin : sinDeg 0 = 0)
    (hsq : Image.height img = Image.width img) :
    ∃ out, BatchTransformRotate uniform cosDeg sinDeg 0 [img] = some [out] ∧
      Image.shape out = (Image.height img + 1, Image.width img + 1) ∧
      (∀ y x, y < Image.height img → x < Image.width img →
        Image.pixel out y x = Image.pixel img y x) ∧
      (∀ y x, y < Image.height img + 1 → x < Image.width img + 1 →
        Image.height img ≤ y ∨ Image.width img ≤ x →
        Image.pixel out y x = COLOR_WHITE) := by
  have hangle : uniform (0 - 0) 0 = 0 := by
    have h := hu (0 - 0) 0 (by norm_num)
    have h1 := h.1
    have h2 := h.2
    norm_num at h1 h2
    linarith
  have hM : getRotationMatrix2D (((Image.width img / 2 : Nat) : ℚ),
      ((Image.height img / 2 : Nat) : ℚ)) (cosDeg (uniform (0 - 0) 0))
      (sinDeg (uniform (0 - 0) 0)) 1 = ⟨1, 0, 0, 0, 1, 0⟩ := by
    rw [hangle, hcos, hsin, getRotationMatrix2D]
    norm_num
  have hpt : ∀ p : ℤ × ℤ, cvTransformPoint ⟨1, 0, 0, 0, 1, 0⟩ p = p := by
    rintro ⟨px, py⟩
    rw [cvTransformPoint]
    simp only [Prod.mk.injEq]
    constructor <;> norm_num
  have hbb : boundingRect [((0 : ℤ), (0 : ℤ)), ((Image.width img : ℤ), 0),
      (0, (Image.height img : ℤ)), ((Image.width img : ℤ), (Image.height img : ℤ))]
      = (0, 0, (Image.width img : ℤ) + 1, (Image.height img : ℤ) + 1) := by
    rw [boundingRect]
    simp only [List.map_cons, List.map_nil, List.foldl_cons, List.foldl_nil, Prod.mk.injEq]
    refine ⟨?_, ?_, ?_, ?_⟩ <;> omega
  simp only [BatchTransformRotate]
  rw [hM]
  simp only [List.map_cons, List.map_nil, hpt]
  rw [hbb]
  refine ⟨warpAffine img ⟨1, 0, 0, 0, 1, 0⟩ (Image.width img + 1) (Image.height img + 1),
    ?_, ?_, ?_, ?_⟩
  · norm_num
  · exact warpAffine_shape img _ _ _ (by omega)
  · intro y x hy hx
    rw [warpAffine_id_pixel img _ _ y x (by omega) (by omega), if_pos ⟨hx, hy⟩]
  · intro y x hy hx hedge
    rw [warpAffine_id_pixel img _ _ y x (by omega) (by omega), if_neg]
    intro hc
    rcases hedge with he | he <;> omega

/-- C8 (amended): restatement of `rotate_zero_aux` as the claim's theorem;
the Rotate filter with angle bound 0 preserves pixel content but grows the
canvas by one pixel in each dimension. -/
theorem rotate_zero_bound (uniform : ℚ → ℚ → ℚ) (cosDeg sinDeg : ℚ → ℚ) (img : Image)
    (hu : ∀ lo hi, lo ≤ hi → lo ≤ uniform lo hi ∧ uniform lo hi ≤ hi)
    (hcos : cosDeg 0 = 1) (hsin : sinDeg 0 = 0)
    (hsq : Image.height img = Image.width img) :
    ∃ out, BatchTransformRotate uniform cosDeg sinDeg 0 [img] = some [out] ∧
      Image.shape out = (Image.height img + 1, Image.width img + 1) ∧
      (∀ y x, y < Image.height img → x < Image.width img →
        Image.pixel out y x = Image.pixel img y x) ∧
      (∀ y x, y < Image.height img + 1 → x < Image.width img + 1 →
        Image.height img ≤ y ∨ Image.width img ≤ x →
        Image.pixel out y x = COLOR_WHITE) :=
  rotate_zero_aux uniform cosDeg sinDeg img hu hcos hsin hsq

/-- Counterexample to C8 as stated: on the square `1 × 1` image `[[7]]`, with
a degenerate-range uniform draw returning its lower bound (`uniform(0,0) = 0`,
NumPy's behaviour) and the true trigonometric values at 0, the Rotate filter
with angle bound 0 outputs an image whose shape differs from the input's
(`2 × 2` instead of `1 × 1`). -/
theorem rotate_zero_bound_shape_grows :
    ∃ out, BatchTransformRotate (fun lo _ => lo) (fun _ => 1) (fun _ => 0) 0 [[[7]]]
        = some [out] ∧ Image.shape out ≠ Image.shape ([[7]] : Image) := by
  obtain ⟨out, hout, hshape, -, -⟩ := rotate_zero_aux (fun lo _ => lo) (fun _ => 1)
    (fun _ => 0) [[7]] (fun _ _ h => ⟨le_rfl, h⟩) rfl rfl rfl
  refine ⟨out, hout, ?_⟩
  rw [hshape]
  decide

/-- Witness: the amended C8 statement at the `1 × 1` image `[[7]]` with the
concrete degenerate uniform draw and trigonometry. -/
theorem rotate_zero_bound_witness :
    ∃ out, BatchTransformRotate (fun lo _ => lo) (fun _ => 1) (fun _ => 0) 0 [[[7]]]
        = some [out] ∧
      Image.shape out = (Image.height ([[7]] : Image) + 1, Image.width ([[7]] : Image) + 1) ∧
      (∀ y x, y < Image.height ([[7]] : Image) → x < Image.width ([[7]] : Image) →
        Image.pixel out y x = Image.pixel ([[7]] : Image) y x) ∧
      (∀ y x, y < Image.height ([[7]] : Image) + 1 → x < Image.width ([[7]] : Image) + 1 →
        Image.height ([[7]] : Image) ≤ y ∨ Image.width ([[7]] : Image) ≤ x →
        Image.pixel out y x = COLOR_WHITE) :=
  rotate_zero_bound (fun lo _ => lo) (fun _ => 1) (fun _ => 0) [[7]]
    (fun _ _ h => ⟨le_rfl, h⟩) rfl rfl rfl
